import Mathlib


/-!
Verification of the multi-chat streaming synchronization engine of the
`ada-ai` web client.

The definitions below are a shallow embedding of the TypeScript source:

* data model (`Message`, `SearchEntry`, `StatusInfo`, `SourceInfo`) from
  `components/Chat/ChatMessage.tsx` and `components/Chat/SearchStatus.tsx`
  (revision with `textPreview`, `src/unnamed/part_007`);
* the SSE event-processing loop of `handleSendMessage` and the chat-switch
  handler `handleSelectChat` from `app/dashboard/page.tsx`;
* the per-conversation stream registry of the multi-session generation of
  the dashboard page (`src/unnamed/part_003`, third revision);
* the persistence-gateway entry `updateChat` from `lib/chatService.ts`;
* the chunk-splitting SSE line decoder shared by all generations of
  `handleSendMessage`.

JavaScript-specific semantics (truthiness of `||`, `Map` get/set/delete,
`Array.prototype.findIndex`, `String.prototype.split` with a one-character
separator) are modelled by small helper functions defined first.
-/

/-- JavaScript `a || b` on an optional string: `undefined`/`null` and the
empty string are falsy, every other string is truthy. -/
def jsStrOr (a b : Option String) : Option String :=
  match a with
  | none => b
  | some s => if s = "" then b else some s

/-- Role of a chat message (`'user' | 'assistant'`). -/
inductive Role where
  | user
  | assistant
deriving DecidableEq, Repr

/-- Status of one search entry (`'searching' | 'complete'`). -/
inductive SearchState where
  | searching
  | complete
deriving DecidableEq, Repr

/-- One source record of a search entry (`SourceInfo` in SearchStatus.tsx). -/
structure SourceInfo where
  url : String
  title : String
  domain : String
  error : Option String
deriving DecidableEq, Repr

/-- One backend search query of a turn (`SearchEntry` in SearchStatus.tsx).
`queryIndex` is optional: together with `iteration` it forms the entry
identity. -/
structure SearchEntry where
  query : String
  sources : List SourceInfo
  iteration : Int
  queryIndex : Option Int
  status : Option SearchState
  textPreview : Option String
deriving DecidableEq, Repr

/-- Ephemeral status shown while a turn is processing (`StatusInfo`). -/
structure StatusInfo where
  message : String
  step : Int
  icon : String
  canSkip : Bool
deriving DecidableEq, Repr

/-- One conversational message (`Message` in ChatMessage.tsx). Optional
TypeScript fields become `Option`; `null` and `undefined` are collapsed. -/
structure Message where
  id : String
  role : Role
  content : String
  isStreaming : Option Bool
  searchHistory : Option (List SearchEntry)
  currentStatus : Option StatusInfo
  rawSearchData : Option String
  textPreview : Option String
deriving DecidableEq, Repr

/-- JavaScript `Array.prototype.findIndex`, returning `none` for `-1`:
index of the first element satisfying the predicate. -/
def findIndexJS {α : Type} (p : α → Bool) : List α → Option Nat
  | [] => none
  | x :: xs => if p x then some 0 else (findIndexJS p xs).map (· + 1)

/-- Identity key of a search entry: the pair used by the upsert lookup. -/
def searchKey (s : SearchEntry) : Int × Option Int :=
  (s.iteration, s.queryIndex)

/-- Predicate of the upsert lookup in `handleSendMessage`
(`s.iteration === data.iteration && s.queryIndex === data.queryIndex`). -/
def sameSearchKey (e : SearchEntry) (s : SearchEntry) : Bool :=
  decide (s.iteration = e.iteration ∧ s.queryIndex = e.queryIndex)

/-- In-place replacement step of the search upsert: the entry at the found
index is overwritten by the new entry, keeping the old `textPreview` when
the new one is JS-falsy
(`currentSearchHistory[existingIndex] = { ...searchEntry, textPreview:
searchEntry.textPreview || currentSearchHistory[existingIndex].textPreview }`). -/
def upsertReplace (hist : List SearchEntry) (e : SearchEntry) (i : Nat) : List SearchEntry :=
  match hist[i]? with
  | some old =>
      hist.set i { e with textPreview := jsStrOr e.textPreview old.textPreview }
  | none => hist

/-- Search-entry upsert of `handleSendMessage`
(`app/dashboard/page.tsx` lines 420-434): find the first entry whose
`iteration` and `queryIndex` both match, replace it in place, or append
when absent. -/
def upsertSearch (hist : List SearchEntry) (e : SearchEntry) : List SearchEntry :=
  match findIndexJS (sameSearchKey e) hist with
  | some i => upsertReplace hist e i
  | none => hist ++ [e]

/-- Accumulated search history after a sequence of upserts starting from the
empty history (the per-turn `currentSearchHistory` accumulator). -/
def accumSearch (es : List SearchEntry) : List SearchEntry :=
  es.foldl upsertSearch []

/-- Keys of a search history, in order. -/
def searchKeys (hist : List SearchEntry) : List (Int × Option Int) :=
  hist.map searchKey

/-!
The streaming turn engine of `handleSendMessage` in
`app/dashboard/page.tsx` (lines 247-668).

A turn is a user submission: after the quota pre-flight (modelled
separately, see `handleSendMessagePre`), the engine appends a user message
and a streaming assistant placeholder, opens the SSE request, and folds
decoded events into the per-turn accumulators (`streamingChatRef`, the
local `accumulatedContent` and `currentSearchHistory`) and into the React
`messages` state — the latter only while the turn's conversation is the
visible one.  The model below represents the reachable state as
`EngineState`, one decoded event or one `handleSelectChat` call as a
`TurnStep`, and the code after the reader loop (forced finalization,
error recovery, `finally`) as `finishTurn`.
-/

/-- One decoded SSE event (the JSON object after the `data: ` marker),
fields as read by `handleSendMessage`.  Optional wire fields are `Option`. -/
inductive SSEvent where
  | session (sessionId : String)
  | status (message : String) (step : Int) (icon : String) (canSkip : Option Bool)
  | search (query : String) (sources : Option (List SourceInfo)) (iteration : Int)
      (queryIndex : Option Int) (status : Option SearchState)
      (textPreview : Option String)
  | content (delta : String)
  | done (searchHistory : Option (List SearchEntry)) (rawSearchData : Option String)
  | error (message : String)
deriving DecidableEq, Repr

/-- The `streamingChatRef` mutable record of `app/dashboard/page.tsx`
(lines 41-55). -/
structure StreamingRef where
  chatId : Option String
  visibleChatId : Option String
  messages : List Message
  assistantMessageId : Option String
  accumulatedContent : String
  searchHistory : List SearchEntry
deriving DecidableEq, Repr

/-- The cleared `streamingChatRef` (the reset object literal used on
`done`, on forced finalization and on error). -/
def emptyStreamingRef : StreamingRef where
  chatId := none
  visibleChatId := none
  messages := []
  assistantMessageId := none
  accumulatedContent := ""
  searchHistory := []

/-- Reachable engine state during one turn: the ref, the React state
(`messages`, `currentChatId`, `statusMessage`, `isLoading`), the reader
loop locals (`accumulatedContent`, `currentSearchHistory`,
`receivedDone`), `sessionIdRef`, and the observable effect log — the
ordered `updateChat` calls (`saves`), the number of reply-credit
deductions (`replyDeducts`), and the number of `setChats` updatedAt bumps
(`chatsBumps`). -/
structure EngineState where
  ref : StreamingRef
  uiMessages : List Message
  uiChatId : Option String
  statusMessage : String
  isLoading : Bool
  accumulated : String
  currentSearchHistory : List SearchEntry
  receivedDone : Bool
  sessionId : Option String
  saves : List (String × List Message)
  replyDeducts : Nat
  chatsBumps : Nat
deriving DecidableEq, Repr

/-- `messages.map(m => m.id === assistantMessageId ? f(m) : m)` — the update
shape every event branch applies to the ref's message list. -/
def mapAssistant (amid : String) (f : Message → Message) (ms : List Message) : List Message :=
  ms.map fun m => if m.id = amid then f m else m

/-- One decoded event applied to the engine state, as in the reader loop of
`handleSendMessage` (`app/dashboard/page.tsx` lines 374-553).  `chatId` and
`amid` are the loop constants `chatId` and `assistantMessageId`.

Note on the `error` branch: the source throws `new Error(data.message)`
inside the same `try` whose `catch (parseError)` skips malformed JSON
lines, so that throw is caught there, logged, and the loop continues with
the state unchanged. -/
def stepEvent (chatId amid : String) (s : EngineState) (e : SSEvent) : EngineState :=
  match e with
  | .session sid => { s with sessionId := some sid }
  | .status msg st icon canSkip =>
    let si : StatusInfo := { message := msg, step := st, icon := icon, canSkip := canSkip.getD false }
    let ms := mapAssistant amid (fun m => { m with currentStatus := some si }) s.ref.messages
    { s with
      statusMessage := msg
      ref := { s.ref with messages := ms }
      uiMessages := if s.ref.visibleChatId = some chatId then ms else s.uiMessages }
  | .search q srcs iter qidx st tp =>
    let searchEntry : SearchEntry :=
      { query := q, sources := srcs.getD [], iteration := iter, queryIndex := qidx, status := st, textPreview := tp }
    let hist := upsertSearch s.currentSearchHistory searchEntry
    let ms := mapAssistant amid (fun m => { m with searchHistory := some hist }) s.ref.messages
    { s with
      currentSearchHistory := hist
      ref := { s.ref with searchHistory := hist, messages := ms }
      uiMessages := if s.ref.visibleChatId = some chatId then ms else s.uiMessages }
  | .content delta =>
    let acc := s.accumulated ++ delta
    let ms := mapAssistant amid
      (fun m => { m with content := acc, currentStatus := none }) s.ref.messages
    { s with
      accumulated := acc
      ref := { s.ref with accumulatedContent := acc, messages := ms }
      uiMessages := if s.ref.visibleChatId = some chatId then ms else s.uiMessages }
  | .done sh rsd =>
    let finalSearchHistory := (sh.getD s.currentSearchHistory).map
      fun en => { en with status := some SearchState.complete }
    let rawSearchData := rsd.getD ""
    let finalMessages := mapAssistant amid
      (fun m => { m with
        isStreaming := some false
        currentStatus := none
        searchHistory := some finalSearchHistory
        rawSearchData := some rawSearchData }) s.ref.messages
    { s with
      receivedDone := true
      statusMessage := ""
      uiMessages := if s.ref.visibleChatId = some chatId then finalMessages else s.uiMessages
      chatsBumps := s.chatsBumps + 1
      saves := if chatId ≠ "" then s.saves ++ [(chatId, finalMessages)] else s.saves
      ref := emptyStreamingRef
      sessionId := none
      replyDeducts := s.replyDeducts + 1 }
  | .error _ => s

/-- The chat-switch handler `handleSelectChat` of `app/dashboard/page.tsx`
(lines 171-223), with the authenticated user assumed present.  `durable`
is the persistence gateway's `getChat` (`none` both for a missing document
and for a failed read, which leave the state untouched). -/
def handleSelectChatM (durable : String → Option (List Message))
    (s : EngineState) (target : String) : EngineState :=
  if s.uiChatId = some target then s
  else if s.ref.chatId = some target then
    { s with
      uiChatId := some target
      uiMessages := s.ref.messages
      ref := { s.ref with visibleChatId := some target } }
  else
    let s1 := if s.ref.chatId ≠ none then
                { s with ref := { s.ref with visibleChatId := some target } }
              else s
    match durable target with
    | some ms =>
      { s1 with
        uiChatId := some target
        uiMessages := ms
        statusMessage := ""
        isLoading := if s1.ref.chatId = none then false else s1.isLoading }
    | none => s1

/-- One interleaving step during an active turn: either the reader loop
decodes the next event, or the user switches the visible conversation. -/
inductive TurnStep where
  | ev (e : SSEvent)
  | select (target : String)
deriving DecidableEq, Repr

/-- Apply one `TurnStep`. -/
def stepTurn (chatId amid : String) (durable : String → Option (List Message))
    (s : EngineState) (st : TurnStep) : EngineState :=
  match st with
  | .ev e => stepEvent chatId amid s e
  | .select target => handleSelectChatM durable s target

/-- Run a whole interleaving of events and visibility switches. -/
def runTrace (chatId amid : String) (durable : String → Option (List Message))
    (s : EngineState) (steps : List TurnStep) : EngineState :=
  steps.foldl (stepTurn chatId amid durable) s

/-- The user message appended at turn start
(`app/dashboard/page.tsx` lines 296-300). -/
def mkUserMessage (umid text : String) : Message where
  id := umid
  role := Role.user
  content := text
  isStreaming := none
  searchHistory := none
  currentStatus := none
  rawSearchData := none
  textPreview := none

/-- The empty streaming assistant placeholder
(`app/dashboard/page.tsx` lines 303-311). -/
def mkAssistantPlaceholder (amid : String) : Message where
  id := amid
  role := Role.assistant
  content := ""
  isStreaming := some true
  searchHistory := some []
  currentStatus := none
  rawSearchData := none
  textPreview := none

/-- Engine state at the top of the reader loop
(`app/dashboard/page.tsx` lines 313-360): ref initialized with the turn's
conversation as the visible one, React state holding the same initial
message list, empty accumulators.  `sid0` is whatever `sessionIdRef` held
before the turn; `prior` is the message list of the conversation before
this submission. -/
def initEngineState (prior : List Message) (text chatId umid amid : String)
    (sid0 : Option String) : EngineState :=
  let initialMessages := prior ++ [mkUserMessage umid text, mkAssistantPlaceholder amid]
  { ref := { chatId := some chatId, visibleChatId := some chatId, messages := initialMessages, assistantMessageId := some amid, accumulatedContent := "", searchHistory := [] }
    uiMessages := initialMessages
    uiChatId := some chatId
    statusMessage := "Connecting..."
    isLoading := true
    accumulated := ""
    currentSearchHistory := []
    receivedDone := false
    sessionId := sid0
    saves := []
    replyDeducts := 0
    chatsBumps := 0 }

/-- The note substituted when a stream ends without `done` after searches
produced no content (`app/dashboard/page.tsx` line 576). -/
def interruptionNote : String := "Response was interrupted during generation."

/-- The error text written by the outer catch of `handleSendMessage`
(`app/dashboard/page.tsx` line 630). -/
def errorContent (msg : String) : String :=
  "Sorry, I encountered an error: " ++ msg ++
    ". Please make sure the AI server is running on port 5000."

/-- The message list built by the forced finalization of a stream that
ended without `done` (`app/dashboard/page.tsx` lines 561-580): assistant
placeholder gets `isStreaming=false`, its search history completed, and as
content the accumulated text if JS-truthy, else the interruption note if
any search history accumulated, else its previous content. -/
def forceFinalizedMessages (amid acc : String) (hist : List SearchEntry)
    (ms : List Message) : List Message :=
  let finalSearchHistory := hist.map fun en => { en with status := some SearchState.complete }
  mapAssistant amid
    (fun m => { m with
      isStreaming := some false
      currentStatus := none
      searchHistory := some finalSearchHistory
      content := if acc ≠ "" then acc
                 else if hist.length > 0 then interruptionNote
                 else m.content }) ms

/-- The message list built by the outer catch of `handleSendMessage`
(`app/dashboard/page.tsx` lines 625-635). -/
def errorFinalizedMessages (amid emsg : String) (ms : List Message) : List Message :=
  mapAssistant amid
    (fun m => { m with
      content := errorContent emsg
      isStreaming := some false
      currentStatus := none }) ms

/-- How the reader loop of a turn came to an end: the byte stream completed
(`reader.read()` returned done), the transport failed with a rejection
caught by the outer catch, or the request was aborted (`AbortError`,
early-returned without touching the state). -/
inductive StreamEndKind where
  | closed
  | failed (msg : String)
  | aborted
deriving DecidableEq, Repr

/-- The code after the reader loop of `handleSendMessage`
(`app/dashboard/page.tsx` lines 556-665): the forced
finalization-without-`done` block, the outer catch (which skips
`AbortError`), and the `finally` that clears `isLoading`. -/
def finishTurn (chatId amid : String) (k : StreamEndKind) (s : EngineState) : EngineState :=
  match k with
  | .closed =>
    if s.receivedDone then { s with isLoading := false }
    else
      let finalMessages :=
        forceFinalizedMessages amid s.accumulated s.currentSearchHistory s.ref.messages
      { s with
        statusMessage := ""
        uiMessages := if s.ref.visibleChatId = some chatId then finalMessages else s.uiMessages
        chatsBumps := s.chatsBumps + 1
        saves := if chatId ≠ "" then s.saves ++ [(chatId, finalMessages)] else s.saves
        ref := emptyStreamingRef
        isLoading := false }
  | .failed emsg =>
      let finalMessages := errorFinalizedMessages amid emsg s.ref.messages
      { s with
        statusMessage := ""
        uiMessages := if s.ref.visibleChatId = some chatId then finalMessages else s.uiMessages
        saves := if chatId ≠ "" then s.saves ++ [(chatId, finalMessages)] else s.saves
        ref := emptyStreamingRef
        isLoading := false }
  | .aborted => { s with isLoading := false }

/-- A whole streaming turn after the pre-flight: initial state, an
interleaving of decoded events and visibility switches, then the
end-of-stream handling. -/
def runTurn (prior : List Message) (text chatId umid amid : String)
    (sid0 : Option String) (durable : String → Option (List Message))
    (steps : List TurnStep) (k : StreamEndKind) : EngineState :=
  finishTurn chatId amid k
    (runTrace chatId amid durable (initEngineState prior text chatId umid amid sid0) steps)

/-!
Pre-flight of `handleSendMessage` (`app/dashboard/page.tsx` lines
247-344): quota check, prompt-credit deduction, abort of the previous
request, conversation creation, synchronous append of the user message and
streaming placeholder, and the outbound chat request.  Modelled as the
ordered list of externally observable actions the prefix performs.
-/

/-- Observable actions of the `handleSendMessage` prefix, in program
order. -/
inductive PreAction where
  | showOutOfCreditsModal
  | deductPromptCredit
  | abortPreviousController
  | setAbortController
  | createChatCall
  | raiseSaveError
  | registerStreamingRef
  | appendUserAndPlaceholder
  | openChatRequest
deriving DecidableEq, Repr

/-- Action trace of the `handleSendMessage` prefix.  `credits` is the
cached balance, `promptDeductOk` the result of `useCredits(1)`,
`hasPrevController` whether `abortControllerRef` held a previous request,
`hasChat` whether `currentChatId` is set, and `createOk` whether
`createChat` succeeds when needed. -/
def handleSendMessagePre (credits : Int) (promptDeductOk : Bool)
    (hasPrevController : Bool) (hasChat : Bool) (createOk : Bool) : List PreAction :=
  if credits < 2 then [PreAction.showOutOfCreditsModal]
  else if ¬promptDeductOk then
    [PreAction.deductPromptCredit, PreAction.showOutOfCreditsModal]
  else
    [PreAction.deductPromptCredit]
      ++ (if hasPrevController then [PreAction.abortPreviousController] else [])
      ++ [PreAction.setAbortController]
      ++ (if ¬hasChat ∧ ¬createOk then [PreAction.createChatCall, PreAction.raiseSaveError]
          else (if ¬hasChat then [PreAction.createChatCall] else [])
            ++ [PreAction.registerStreamingRef, PreAction.appendUserAndPlaceholder,
                PreAction.openChatRequest])

/-!
The per-conversation stream registry of the multi-session generation
(`src/unnamed/part_003`, third revision, lines 1306-1319 and 1496-1508):
`activeStreamsRef : Map<string, AbortController>`.  A JavaScript `Map` is
modelled as a function from conversation ids to the optional identifying
token of the registered abort controller.
-/

/-- JavaScript `Map.delete`. -/
def mapDelete (reg : String → Option Nat) (k : String) : String → Option Nat :=
  fun c => if c = k then none else reg c

/-- JavaScript `Map.set`. -/
def mapSet (reg : String → Option Nat) (k : String) (v : Nat) : String → Option Nat :=
  fun c => if c = k then some v else reg c

/-- Start of a new turn on `chatId` (`src/unnamed/part_003` lines
1306-1319): abort and delete any existing controller for this chat only,
then register a fresh controller.  Returns the new registry and the list
of aborted controllers. -/
def startTurnRegistry (reg : String → Option Nat) (chatId : String) (fresh : Nat) :
    (String → Option Nat) × List Nat :=
  match reg chatId with
  | some ctrl => (mapSet (mapDelete reg chatId) chatId fresh, [ctrl])
  | none => (mapSet reg chatId fresh, [])

/-- End of a turn on `chatId` (`src/unnamed/part_003` lines 1496-1508,
the `finally` block): the controller reference is removed. -/
def endTurnRegistry (reg : String → Option Nat) (chatId : String) : String → Option Nat :=
  mapDelete reg chatId

/-!
The persistence gateway entry `updateChat` of `lib/chatService.ts`
(lines 86-150): input validation, Firestore-safe serialization, then the
`updateDoc` write.  The durable store is modelled as a map from
`(userId, chatId)` to the stored serialized message list; a thrown
`SAVE_ERROR` becomes `Except.error`.
-/

/-- A message as serialized for Firestore by `updateChat`
(`lib/chatService.ts` lines 109-124): `rawSearchData` is kept only when
JS-truthy and capped at 50000 characters. -/
structure SerializedMessage where
  id : String
  role : Role
  content : String
  searchHistory : List SearchEntry
  rawSearchData : Option String
deriving DecidableEq, Repr

/-- Serialization of one message (`lib/chatService.ts` lines 109-124). -/
def serializeMessage (m : Message) : SerializedMessage where
  id := m.id
  role := m.role
  content := m.content
  searchHistory := m.searchHistory.getD []
  rawSearchData :=
    match m.rawSearchData with
    | some s => if s = "" then none else some (s.take 50000)
    | none => none

/-- `updateChat(userId, chatId, messages)` (`lib/chatService.ts` lines
86-150): validation errors throw a `SAVE_ERROR` before any write; on
success the serialized list is what `updateDoc` writes. -/
def updateChat (userId chatId : String) (messages : List Message) :
    Except String (List SerializedMessage) :=
  if userId = "" then Except.error "SAVE_ERROR: No user ID provided"
  else if chatId = "" then Except.error "SAVE_ERROR: No chat ID provided"
  else if messages.length = 0 then Except.error "SAVE_ERROR: No messages to save"
  else Except.ok (messages.map serializeMessage)

/-- `updateChat` applied to a durable store: the conversation document is
overwritten only when validation and the write succeed. -/
def runUpdateChat (store : String × String → Option (List SerializedMessage))
    (userId chatId : String) (messages : List Message) :
    (String × String → Option (List SerializedMessage)) × Except String Unit :=
  match updateChat userId chatId messages with
  | Except.error e => (store, Except.error e)
  | Except.ok ser =>
    (fun k => if k = (userId, chatId) then some ser else store k, Except.ok ())

/-!
The SSE line decoder shared by every generation of `handleSendMessage`
(`app/dashboard/page.tsx` lines 363-377): each network chunk is decoded to
text, split on newlines, and every resulting piece starting with the
`data: ` marker has its remainder passed to `JSON.parse`; a piece that
fails to parse is logged and skipped.  No partial-line buffer is kept
between chunks.

Characters model the decoded text (the `TextDecoder` with `stream: true`
re-assembles split UTF-8 code points, but never lines).  `JSON.parse` is
modelled by `parseContentPayload`, restricted to the canonical
serialization of `content` events whose delta needs no JSON escapes — it
agrees with `JSON.parse` on every string the theorems apply it to: a
complete such serialization parses to the event, and any proper prefix of
one (a truncated line) throws, i.e. `none`.
-/

/-- JavaScript `String.prototype.split` with a one-character separator. -/
def splitStep (c x : Char) (r : List (List Char)) : List (List Char) :=
  match r with
  | [] => [[]]
  | y :: ys => if x = c then [] :: y :: ys else (x :: y) :: ys

/-- JavaScript `String.prototype.split` with a one-character separator,
as a right fold over the characters: prepending a separator starts a new
empty piece, any other character extends the first piece.  The split of a
suffix is never empty, so the `[]` case of `splitStep` is unreachable. -/
def splitOnJS (c : Char) (s : List Char) : List (List Char) :=
  s.foldr (splitStep c) [[]]

/-- JavaScript `String.prototype.startsWith` on character lists. -/
def startsWithList : List Char → List Char → Bool
  | [], _ => true
  | _ :: _, [] => false
  | p :: ps, x :: xs => p = x && startsWithList ps xs

/-- The fixed SSE data marker (`'data: '`). -/
def dataMarker : List Char := "data: ".toList

/-- Canonical JSON opening of a `content` event payload,
`{"type":"content","data":"`. -/
def contentOpen : List Char := "\x7b\"type\":\"content\",\"data\":\"".toList

/-- Reads the delta up to the closing `"}` of a `content` payload; `none`
on a quote-free truncation, an escape, or trailing garbage (all of which
make `JSON.parse` throw or produce a non-`content` value). -/
def extractDelta : List Char → Option (List Char)
  | [] => none
  | c :: rest =>
    if c = '"' then (if rest = ['\x7d'] then some [] else none)
    else if c = '\\' then none
    else (extractDelta rest).map (c :: ·)

/-- `JSON.parse` restricted to canonical `content` payloads: returns the
event's delta, or `none` when the string is not a complete such payload. -/
def parseContentPayload (payload : List Char) : Option (List Char) :=
  if startsWithList contentOpen payload then extractDelta (payload.drop contentOpen.length)
  else none

/-- Processing of one split piece (`app/dashboard/page.tsx` lines
374-377 and 448-450): a piece starting with `data: ` has `line.slice(6)`
parsed, and a `content` event appends its delta to the accumulated text;
anything else leaves the accumulator unchanged. -/
def processLine (acc : List Char) (line : List Char) : List Char :=
  if startsWithList dataMarker line then
    match parseContentPayload (line.drop 6) with
    | some d => acc ++ d
    | none => acc
  else acc

/-- Processing of one network chunk (`chunk.split('\n')` then the
per-piece loop). -/
def processChunk (acc : List Char) (chunk : List Char) : List Char :=
  (splitOnJS '\n' chunk).foldl processLine acc

/-- Accumulated `content` text after a whole chunked stream. -/
def processStream (chunks : List (List Char)) : List Char :=
  chunks.foldl processChunk []

/-- The canonical wire line of a `content` event (without its trailing
newline). -/
def encodeContentLine (d : List Char) : List Char :=
  dataMarker ++ contentOpen ++ d ++ ['"', '\x7d']

/-- A delta that needs no JSON escaping and contains no newline. -/
def goodDelta (d : List Char) : Bool :=
  d.all fun c => decide (c ≠ '"' ∧ c ≠ '\\' ∧ c ≠ '\n')

/-- The chunk obtained from a group of consecutive logical lines, each
followed by its newline. -/
def chunkOfLines (g : List (List Char)) : List Char :=
  (g.map (· ++ ['\n'])).flatten

/-- A concrete pair of search entries exercising the C6 upsert: same
identity key, newer event without a text preview. -/
def c6Old : SearchEntry where
  query := "photosynthesis"
  sources := []
  iteration := 0
  queryIndex := some 0
  status := some SearchState.searching
  textPreview := some "chlorophyll"

/-- The later C6 event: same key, fresh sources and status, no preview. -/
def c6New : SearchEntry where
  query := "photosynthesis"
  sources := [{ url := "https://a", title := "A", domain := "a", error := none }]
  iteration := 0
  queryIndex := some 0
  status := some SearchState.complete
  textPreview := none

/-- First network chunk of the C2 counterexample: a `content` line cut in
the middle of its JSON payload. -/
def c2Chunk1 : List Char := "data: \x7b\"type\":\"content\",\"da".toList

/-- Second network chunk of the C2 counterexample: the rest of the line. -/
def c2Chunk2 : List Char := "ta\":\"hi\"\x7d\n".toList

/-- Whether an event is the terminal `done` event. -/
def isDoneEvent : SSEvent → Bool
  | .done _ _ => true
  | _ => false

/-- Whether a step is the decoding of a `done` event. -/
def isDoneStep : TurnStep → Bool
  | .ev e => isDoneEvent e
  | .select _ => false

/-- Number of `done` events decoded in a trace. -/
def countDoneEvents (steps : List TurnStep) : Nat :=
  (steps.filter isDoneStep).length

/-- The live in-memory state a turn's session accumulates: the ref's
message list and the reader loop's two accumulators. -/
structure LiveView where
  messages : List Message
  accumulated : String
  searchHistory : List SearchEntry
deriving DecidableEq, Repr

/-- Projection of the engine state onto its live view. -/
def liveView (s : EngineState) : LiveView where
  messages := s.ref.messages
  accumulated := s.accumulated
  searchHistory := s.currentSearchHistory

/-- The pure effect of one decoded event on the live view — what the
session accumulates regardless of which conversation is visible
(the unconditional ref updates of the reader loop branches). -/
def applyEventView (amid : String) (v : LiveView) (e : SSEvent) : LiveView :=
  match e with
  | .session _ => v
  | .status msg st icon canSkip =>
    { v with messages := mapAssistant amid (fun m => { m with currentStatus := some ⟨msg, st, icon, canSkip.getD false⟩ }) v.messages }
  | .search q srcs iter qidx sta tp =>
    let hist := upsertSearch v.searchHistory ⟨q, srcs.getD [], iter, qidx, sta, tp⟩
    { messages := mapAssistant amid (fun m => { m with searchHistory := some hist }) v.messages
      accumulated := v.accumulated
      searchHistory := hist }
  | .content delta =>
    let acc := v.accumulated ++ delta
    { messages := mapAssistant amid (fun m => { m with content := acc, currentStatus := none }) v.messages
      accumulated := acc
      searchHistory := v.searchHistory }
  | .done _ _ => v
  | .error _ => v

/-- One trace step applied to the live view: a visibility switch leaves
the session's accumulation untouched. -/
def replayStep (amid : String) (v : LiveView) (st : TurnStep) : LiveView :=
  match st with
  | .ev e => applyEventView amid v e
  | .select _ => v

/-- Pure replay of a trace over the live view: the state the session
accumulates had visibility never changed. -/
def replaySteps (amid : String) (v : LiveView) (steps : List TurnStep) : LiveView :=
  steps.foldl (replayStep amid) v

/-- Everything that identifies a running session and its accumulated
work — the part of the engine state a visibility switch must not touch. -/
def sessionCore (s : EngineState) :
    Option String × List Message × Option String × String × List SearchEntry ×
      String × List SearchEntry × Bool × Option String ×
      List (String × List Message) × Nat :=
  (s.ref.chatId, s.ref.messages, s.ref.assistantMessageId, s.ref.accumulatedContent,
   s.ref.searchHistory, s.accumulated, s.currentSearchHistory, s.receivedDone,
   s.sessionId, s.saves, s.replyDeducts)

/-- Synchronization invariant of the visible projection during a turn on
`chatId`: the ref stays bound to the turn's conversation, and whenever the
turn's conversation is the one rendered, the rendered list is exactly the
ref's live list. -/
def visSync (chatId : String) (s : EngineState) : Prop :=
  s.ref.chatId = some chatId ∧
  (s.uiChatId = some chatId →
    s.ref.visibleChatId = some chatId ∧ s.uiMessages = s.ref.messages)

lemma sameSearchKey_iff {e s : SearchEntry} :
    sameSearchKey e s = true ↔ searchKey s = searchKey e := by
  unfold sameSearchKey searchKey
  constructor
  · intro h
    have h2 := of_decide_eq_true h
    simp [h2.1, h2.2]
  · intro h
    apply decide_eq_true
    exact ⟨congrArg Prod.fst h, congrArg Prod.snd h⟩

lemma findIndexJS_eq_none {α : Type} {p : α → Bool} {l : List α}
    (h : findIndexJS p l = none) : ∀ x ∈ l, p x = false := by
  induction l with
  | nil => intro x hx; cases hx
  | cons a as ih =>
    intro x hx
    by_cases hpa : p a = true
    · simp [findIndexJS, hpa] at h
    · rcases List.mem_cons.mp hx with hxa | hxs
      · rw [hxa]
        simpa using hpa
      · refine ih ?_ x hxs
        simp only [findIndexJS, if_neg hpa] at h
        cases hfa : findIndexJS p as with
        | none => rfl
        | some i => rw [hfa] at h; simp at h

lemma findIndexJS_eq_some {α : Type} {p : α → Bool} {l : List α} {i : Nat}
    (h : findIndexJS p l = some i) :
    ∃ x, l[i]? = some x ∧ p x = true ∧
      ∀ j y, j < i → l[j]? = some y → p y = false := by
  induction l generalizing i with
  | nil => simp [findIndexJS] at h
  | cons a as ih =>
    by_cases hpa : p a = true
    · simp only [findIndexJS, if_pos hpa, Option.some.injEq] at h
      subst h
      exact ⟨a, List.getElem?_cons_zero, hpa, by intro j y hj; omega⟩
    · simp only [findIndexJS, if_neg hpa] at h
      cases hfa : findIndexJS p as with
      | none => rw [hfa] at h; simp at h
      | some n =>
        rw [hfa] at h
        simp only [Option.map_some', Option.some.injEq] at h
        subst h
        rcases ih hfa with ⟨x, hget, hx, hfirst⟩
        refine ⟨x, by simpa using hget, hx, ?_⟩
        intro j y hj hy
        cases j with
        | zero =>
          rw [List.getElem?_cons_zero] at hy
          injection hy with hy
          rw [← hy]
          simpa using hpa
        | succ m =>
          exact hfirst m y (by omega) (by simpa using hy)

lemma findIndexJS_of_get {α : Type} {p : α → Bool} {l : List α} {i : Nat} {x : α}
    (hget : l[i]? = some x) (hx : p x = true)
    (hfirst : ∀ j y, j < i → l[j]? = some y → p y = false) :
    findIndexJS p l = some i := by
  induction l generalizing i with
  | nil => simp at hget
  | cons a as ih =>
    cases i with
    | zero =>
      rw [List.getElem?_cons_zero] at hget
      injection hget with hget
      subst hget
      simp [findIndexJS, hx]
    | succ n =>
      have hpa : p a = false := hfirst 0 a (Nat.succ_pos n) List.getElem?_cons_zero
      rw [List.getElem?_cons_succ] at hget
      have hrec := ih hget (by
        intro j y hj hy
        exact hfirst (j + 1) y (Nat.succ_lt_succ hj) (by simpa using hy))
      simp [findIndexJS, hpa, hrec]

lemma upsertSearch_eq_append {hist : List SearchEntry} {e : SearchEntry}
    (hfi : findIndexJS (sameSearchKey e) hist = none) :
    upsertSearch hist e = hist ++ [e] := by
  unfold upsertSearch
  rw [hfi]

lemma upsertSearch_eq_set {hist : List SearchEntry} {e : SearchEntry}
    {i : Nat} {old : SearchEntry}
    (hfi : findIndexJS (sameSearchKey e) hist = some i)
    (hget : hist[i]? = some old) :
    upsertSearch hist e =
      hist.set i { e with textPreview := jsStrOr e.textPreview old.textPreview } := by
  have h1 : upsertSearch hist e = upsertReplace hist e i := by
    unfold upsertSearch
    rw [hfi]
  have h2 : upsertReplace hist e i =
      hist.set i { e with textPreview := jsStrOr e.textPreview old.textPreview } := by
    unfold upsertReplace
    rw [hget]
  rw [h1, h2]

lemma searchKeys_set_of_same_key {hist : List SearchEntry} {i : Nat}
    {old e : SearchEntry} (hget : hist[i]? = some old)
    (hkey : searchKey e = searchKey old) :
    searchKeys (hist.set i e) = searchKeys hist := by
  unfold searchKeys
  have hi : i < hist.length := by
    by_contra hlt
    push_neg at hlt
    rw [List.getElem?_eq_none hlt] at hget
    cases hget
  apply List.ext_getElem?
  intro j
  by_cases hji : i = j
  · subst hji
    rw [List.getElem?_map, List.getElem?_map, List.getElem?_set_self hi, hget]
    simp [hkey]
  · rw [List.getElem?_map, List.getElem?_map, List.getElem?_set_ne hji]

/-- Upsert preserves key-uniqueness of the accumulated history. -/
lemma upsertSearch_keys_nodup {hist : List SearchEntry}
    (h : (searchKeys hist).Nodup) (e : SearchEntry) :
    (searchKeys (upsertSearch hist e)).Nodup := by
  cases hfi : findIndexJS (sameSearchKey e) hist with
  | none =>
    have hnot := findIndexJS_eq_none hfi
    have hkey : searchKey e ∉ searchKeys hist := by
      intro hmem
      rcases List.mem_map.mp hmem with ⟨x, hx, hkx⟩
      have hfalse := hnot x hx
      have htrue := sameSearchKey_iff.mpr hkx
      rw [htrue] at hfalse
      cases hfalse
    rw [upsertSearch_eq_append hfi]
    simp only [searchKeys, List.map_append, List.map_singleton]
    rw [List.nodup_append]
    refine ⟨h, List.nodup_singleton _, ?_⟩
    intro a ha hb
    simp at hb
    rw [hb] at ha
    exact hkey ha
  | some i =>
    rcases findIndexJS_eq_some hfi with ⟨old, hget, hpx, -⟩
    have hko : searchKey old = searchKey e := sameSearchKey_iff.mp hpx
    have hkeyeq : searchKey { e with
        textPreview := jsStrOr e.textPreview old.textPreview } = searchKey old := by
      rw [hko]
      rfl
    rw [upsertSearch_eq_set hfi hget, searchKeys_set_of_same_key hget hkeyeq]
    exact h

/-- Claim C6: the accumulated search history has at most one entry per
`(iteration, queryIndex)` key; an upsert whose key is already present
replaces that entry in place (same length, same position, other entries
untouched, `sources` and `status` taken from the new event), and the
previously stored `textPreview` is kept whenever the later event carries
none. -/
theorem C6_search_upsert_by_identity_key :
    (∀ es : List SearchEntry, (searchKeys (accumSearch es)).Nodup) ∧
    (∀ (hist : List SearchEntry) (e : SearchEntry) (i : Nat) (old : SearchEntry),
      (searchKeys hist).Nodup →
      hist[i]? = some old →
      searchKey old = searchKey e →
      (upsertSearch hist e).length = hist.length ∧
      (upsertSearch hist e)[i]? =
        some { e with textPreview := jsStrOr e.textPreview old.textPreview } ∧
      (∀ j : Nat, i ≠ j → (upsertSearch hist e)[j]? = hist[j]?) ∧
      (e.textPreview = none → jsStrOr e.textPreview old.textPreview = old.textPreview)) := by
  constructor
  · intro es
    unfold accumSearch
    have hgen : ∀ (l : List SearchEntry) (h0 : List SearchEntry),
        (searchKeys h0).Nodup → (searchKeys (l.foldl upsertSearch h0)).Nodup := by
      intro l
      induction l with
      | nil => intro h0 h; simpa using h
      | cons a as ih =>
        intro h0 h
        exact ih _ (upsertSearch_keys_nodup h a)
    exact hgen es [] (by simp [searchKeys])
  · intro hist e i old hnodup hget hkey
    have hi : i < hist.length := by
      by_contra hlt
      push_neg at hlt
      rw [List.getElem?_eq_none hlt] at hget
      cases hget
    have hfi : findIndexJS (sameSearchKey e) hist = some i := by
      apply findIndexJS_of_get hget (sameSearchKey_iff.mpr hkey)
      intro j y hj hy
      by_contra hpy
      rw [Bool.not_eq_false] at hpy
      have hkj : searchKey y = searchKey e := sameSearchKey_iff.mp hpy
      -- two distinct positions with the same key contradict Nodup
      have hjlen : j < hist.length := by
        by_contra hc
        push_neg at hc
        rw [List.getElem?_eq_none hc] at hy
        cases hy
      have hklen : i < (searchKeys hist).length := by
        simpa [searchKeys] using hi
      have hjklen : j < (searchKeys hist).length := by
        simpa [searchKeys] using hjlen
      have hmapj : (searchKeys hist)[j] = searchKey e := by
        have hsome : (searchKeys hist)[j]? = some (searchKey e) := by
          unfold searchKeys
          rw [List.getElem?_map, hy]
          simp [hkj]
        rcases List.getElem?_eq_some_iff.mp hsome with ⟨hlen, heq⟩
        exact heq
      have hmapi : (searchKeys hist)[i] = searchKey e := by
        have hsome : (searchKeys hist)[i]? = some (searchKey e) := by
          unfold searchKeys
          rw [List.getElem?_map, hget]
          simp [hkey]
        rcases List.getElem?_eq_some_iff.mp hsome with ⟨hlen, heq⟩
        exact heq
      have hinj := (@List.Nodup.getElem_inj_iff _ _ hnodup j hjklen i hklen).mp
        (by rw [hmapj, hmapi])
      omega
    rw [upsertSearch_eq_set hfi hget]
    refine ⟨by simp, ?_, ?_, ?_⟩
    · rw [List.getElem?_set_self hi]
    · intro j hj
      rw [List.getElem?_set_ne hj]
    · intro hnone
      simp [jsStrOr, hnone]

/-!
Claim theorems.  Each claim of the specification gets exactly one theorem
(plus a closed witness when the theorem carries hypotheses, and a closed
counterexample where the claim fails on the code).
-/

/-- Claim C10: `updateChat` with an empty user id, an empty chat id, or an
empty message list throws a `SAVE_ERROR` and performs no write — the
durable store is unchanged; in particular a finalization can never persist
an empty message list. -/
theorem C10_updateChat_rejects_invalid_input
    (store : String × String → Option (List SerializedMessage))
    (userId chatId : String) (messages : List Message)
    (h : userId = "" ∨ chatId = "" ∨ messages = []) :
    (runUpdateChat store userId chatId messages).1 = store ∧
    ∃ e, (runUpdateChat store userId chatId messages).2 = Except.error e ∧
      startsWithList "SAVE_ERROR".toList e.toList = true := by
  have hval : ∃ e, updateChat userId chatId messages = Except.error e ∧
      startsWithList "SAVE_ERROR".toList e.toList = true := by
    unfold updateChat
    by_cases hu : userId = ""
    · rw [if_pos hu]
      exact ⟨_, rfl, by decide⟩
    · rw [if_neg hu]
      by_cases hc : chatId = ""
      · rw [if_pos hc]
        exact ⟨_, rfl, by decide⟩
      · rw [if_neg hc]
        have hm : messages = [] := by tauto
        rw [if_pos (by simp [hm])]
        exact ⟨_, rfl, by decide⟩
  rcases hval with ⟨e, he, hsv⟩
  constructor
  · unfold runUpdateChat
    rw [he]
  · refine ⟨e, ?_, hsv⟩
    unfold runUpdateChat
    rw [he]

/-- Witness for C10 at a concrete rejected call. -/
theorem C10_updateChat_rejects_invalid_input_witness :
    (runUpdateChat (fun _ => none) "u1" "c1" []).1 = (fun _ => none) ∧
    ∃ e, (runUpdateChat (fun _ => none) "u1" "c1" []).2 = Except.error e ∧
      startsWithList "SAVE_ERROR".toList e.toList = true :=
  C10_updateChat_rejects_invalid_input (fun _ => none) "u1" "c1" [] (by simp)

/-- Claim C4: starting a new turn on a conversation with an active session
cancels exactly that conversation's prior session (and nothing else) and
registers the fresh one, leaving exactly one active session for that
conversation; every other conversation's registry entry is untouched. -/
theorem C4_registry_at_most_one_session
    (reg : String → Option Nat) (chatId : String) (fresh : Nat) :
    (startTurnRegistry reg chatId fresh).1 chatId = some fresh ∧
    (∀ c : String, c ≠ chatId → (startTurnRegistry reg chatId fresh).1 c = reg c) ∧
    (startTurnRegistry reg chatId fresh).2 = (reg chatId).toList := by
  unfold startTurnRegistry
  cases h : reg chatId with
  | some ctrl =>
    refine ⟨by simp [mapSet], ?_, by simp⟩
    intro c hc
    simp [mapSet, mapDelete, hc]
  | none =>
    refine ⟨by simp [mapSet], ?_, by simp⟩
    intro c hc
    simp [mapSet, hc]

/-- Witness for C4 at a concrete registry with a prior session. -/
theorem C4_registry_at_most_one_session_witness :
    (startTurnRegistry (fun c => if c = "c1" then some 5 else none) "c1" 7).1 "c1" = some 7 ∧
    (∀ c : String, c ≠ "c1" →
      (startTurnRegistry (fun c => if c = "c1" then some 5 else none) "c1" 7).1 c
        = (fun c => if c = "c1" then some 5 else none) c) ∧
    (startTurnRegistry (fun c => if c = "c1" then some 5 else none) "c1" 7).2
      = ((fun c => if c = "c1" then some 5 else none) "c1").toList :=
  C4_registry_at_most_one_session (fun c => if c = "c1" then some 5 else none) "c1" 7

/-- Claim C5: when the quota pre-flight fails — cached balance below 2, or
the 1-credit prompt deduction returning false — the submission is rejected
before any chat request, any session registration, any message append or
any conversation creation: the quota-exhausted signal is raised and the
attempt performs nothing beyond (at most) the deduction attempt itself. -/
theorem C5_quota_rejection_registers_nothing
    (credits : Int) (promptDeductOk hasPrevController hasChat createOk : Bool)
    (h : credits < 2 ∨ promptDeductOk = false) :
    PreAction.showOutOfCreditsModal ∈
      handleSendMessagePre credits promptDeductOk hasPrevController hasChat createOk ∧
    PreAction.setAbortController ∉
      handleSendMessagePre credits promptDeductOk hasPrevController hasChat createOk ∧
    PreAction.registerStreamingRef ∉
      handleSendMessagePre credits promptDeductOk hasPrevController hasChat createOk ∧
    PreAction.appendUserAndPlaceholder ∉
      handleSendMessagePre credits promptDeductOk hasPrevController hasChat createOk ∧
    PreAction.openChatRequest ∉
      handleSendMessagePre credits promptDeductOk hasPrevController hasChat createOk ∧
    PreAction.createChatCall ∉
      handleSendMessagePre credits promptDeductOk hasPrevController hasChat createOk ∧
    ∀ a ∈ handleSendMessagePre credits promptDeductOk hasPrevController hasChat createOk,
      a = PreAction.deductPromptCredit ∨ a = PreAction.showOutOfCreditsModal := by
  by_cases hc : credits < 2
  · simp [handleSendMessagePre, hc]
  · have hd : promptDeductOk = false := by tauto
    simp [handleSendMessagePre, hc, hd]

/-- Witness for C5 at a concrete failing deduction. -/
theorem C5_quota_rejection_registers_nothing_witness :
    PreAction.showOutOfCreditsModal ∈ handleSendMessagePre 5 false true true true ∧
    PreAction.setAbortController ∉ handleSendMessagePre 5 false true true true ∧
    PreAction.registerStreamingRef ∉ handleSendMessagePre 5 false true true true ∧
    PreAction.appendUserAndPlaceholder ∉ handleSendMessagePre 5 false true true true ∧
    PreAction.openChatRequest ∉ handleSendMessagePre 5 false true true true ∧
    PreAction.createChatCall ∉ handleSendMessagePre 5 false true true true ∧
    ∀ a ∈ handleSendMessagePre 5 false true true true,
      a = PreAction.deductPromptCredit ∨ a = PreAction.showOutOfCreditsModal :=
  C5_quota_rejection_registers_nothing 5 false true true true (Or.inr rfl)

/-- Witness for C6 at the concrete upsert above. -/
theorem C6_search_upsert_by_identity_key_witness :
    (upsertSearch [c6Old] c6New).length = [c6Old].length ∧
    (upsertSearch [c6Old] c6New)[0]? =
      some { c6New with textPreview := jsStrOr c6New.textPreview c6Old.textPreview } ∧
    (∀ j : Nat, 0 ≠ j → (upsertSearch [c6Old] c6New)[j]? = [c6Old][j]?) ∧
    (c6New.textPreview = none →
      jsStrOr c6New.textPreview c6Old.textPreview = c6Old.textPreview) :=
  C6_search_upsert_by_identity_key.2 [c6Old] c6New 0 c6Old (by decide) (by decide) (by decide)

lemma splitOnJS_cons (c x : Char) (xs : List Char) :
    splitOnJS c (x :: xs) = splitStep c x (splitOnJS c xs) := rfl

lemma splitOnJS_ne_nil (c : Char) (l : List Char) : splitOnJS c l ≠ [] := by
  cases l with
  | nil => simp [splitOnJS]
  | cons x xs =>
    rw [splitOnJS_cons]
    cases h : splitOnJS c xs with
    | nil => simp [splitStep]
    | cons y ys =>
      unfold splitStep
      by_cases hx : x = c
      · simp [hx]
      · simp [hx]

lemma splitOnJS_append_line {c : Char} {l rest : List Char} (h : c ∉ l) :
    splitOnJS c (l ++ c :: rest) = l :: splitOnJS c rest := by
  induction l with
  | nil =>
    rw [List.nil_append, splitOnJS_cons]
    cases hr : splitOnJS c rest with
    | nil => exact absurd hr (splitOnJS_ne_nil c rest)
    | cons y ys =>
      unfold splitStep
      simp
  | cons a as ih =>
    have ha : a ≠ c := by
      intro hac
      exact h (by simp [hac])
    have has : c ∉ as := by
      intro hmem
      exact h (List.mem_cons_of_mem a hmem)
    rw [List.cons_append, splitOnJS_cons, ih has]
    show (if a = c then [] :: as :: splitOnJS c rest
          else (a :: as) :: splitOnJS c rest) = (a :: as) :: splitOnJS c rest
    rw [if_neg ha]

lemma processLine_nil (acc : List Char) : processLine acc [] = acc := by
  unfold processLine
  rw [show startsWithList dataMarker [] = false from by decide]
  simp

lemma processChunk_chunkOfLines (g : List (List Char))
    (h : ∀ l ∈ g, ('\n' : Char) ∉ l) (acc : List Char) :
    processChunk acc (chunkOfLines g) = g.foldl processLine acc := by
  have hsplit : splitOnJS '\n' (chunkOfLines g) = g ++ [[]] := by
    induction g with
    | nil => simp [chunkOfLines, splitOnJS]
    | cons l g2 ih =>
      have hl : ('\n' : Char) ∉ l := h l (by simp)
      have h2 : ∀ x ∈ g2, ('\n' : Char) ∉ x := fun x hx => h x (by simp [hx])
      have hcons : chunkOfLines (l :: g2) = l ++ '\n' :: chunkOfLines g2 := by
        simp [chunkOfLines]
      rw [hcons, splitOnJS_append_line hl, ih h2]
      simp
  unfold processChunk
  rw [hsplit, List.foldl_append]
  simp [processLine_nil]

lemma processStream_chunksOfGroups (gs : List (List (List Char)))
    (h : ∀ g ∈ gs, ∀ l ∈ g, ('\n' : Char) ∉ l) :
    ∀ acc : List Char,
      (gs.map chunkOfLines).foldl processChunk acc = gs.flatten.foldl processLine acc := by
  induction gs with
  | nil => intro acc; simp
  | cons g gs2 ih =>
    intro acc
    have hg : ∀ l ∈ g, ('\n' : Char) ∉ l := h g (by simp)
    have h2 : ∀ g2 ∈ gs2, ∀ l ∈ g2, ('\n' : Char) ∉ l := fun g2 hg2 => h g2 (by simp [hg2])
    simp only [List.map_cons, List.foldl_cons, List.flatten_cons, List.foldl_append]
    rw [processChunk_chunkOfLines g hg acc, ih h2]

lemma startsWithList_append (p rest : List Char) : startsWithList p (p ++ rest) = true := by
  induction p with
  | nil => rfl
  | cons a as ih => simp [startsWithList, ih]

lemma extractDelta_encode {d : List Char} (h : goodDelta d = true) :
    extractDelta (d ++ ['"', '\x7d']) = some d := by
  induction d with
  | nil => decide
  | cons a as ih =>
    have hgood := h
    unfold goodDelta at hgood
    simp only [List.all_cons, Bool.and_eq_true, decide_eq_true_eq] at hgood
    have has : goodDelta as = true := by
      unfold goodDelta
      simpa using hgood.2
    simp only [List.cons_append]
    unfold extractDelta
    rw [if_neg (by simpa using hgood.1.1), if_neg (by simpa using hgood.1.2.1), ih has]
    rfl

lemma processLine_encodeContentLine {d : List Char} (h : goodDelta d = true)
    (acc : List Char) : processLine acc (encodeContentLine d) = acc ++ d := by
  have henc : encodeContentLine d
      = dataMarker ++ (contentOpen ++ (d ++ ['"', '\x7d'])) := by
    unfold encodeContentLine
    simp [List.append_assoc]
  unfold processLine
  rw [henc]
  have hc : startsWithList dataMarker
      (dataMarker ++ (contentOpen ++ (d ++ ['"', '\x7d']))) = true :=
    startsWithList_append _ _
  rw [if_pos hc]
  have hdrop : (dataMarker ++ (contentOpen ++ (d ++ ['"', '\x7d']))).drop 6
      = contentOpen ++ (d ++ ['"', '\x7d']) :=
    List.drop_left' (by decide)
  rw [hdrop]
  unfold parseContentPayload
  have hc2 : startsWithList contentOpen
      (contentOpen ++ (d ++ ['"', '\x7d'])) = true :=
    startsWithList_append _ _
  rw [if_pos hc2]
  have hdrop2 : (contentOpen ++ (d ++ ['"', '\x7d'])).drop contentOpen.length
      = d ++ ['"', '\x7d'] :=
    List.drop_left _ _
  rw [hdrop2, extractDelta_encode h]

lemma newline_not_mem_encodeContentLine {d : List Char} (h : goodDelta d = true) :
    ('\n' : Char) ∉ encodeContentLine d := by
  unfold encodeContentLine
  intro hmem
  simp only [List.mem_append] at hmem
  rcases hmem with ((hm | hm) | hm) | hm
  · revert hm; decide
  · revert hm; decide
  · unfold goodDelta at h
    rw [List.all_eq_true] at h
    have hd := h _ hm
    simp only [decide_eq_true_eq] at hd
    exact hd.2.2 rfl
  · revert hm; decide

lemma foldl_processLine_encoded {ds : List (List Char)}
    (h : ∀ d ∈ ds, goodDelta d = true) :
    ∀ acc : List Char,
      (ds.map encodeContentLine).foldl processLine acc = acc ++ ds.flatten := by
  induction ds with
  | nil => intro acc; simp
  | cons d ds2 ih =>
    intro acc
    have hd : goodDelta d = true := h d (by simp)
    have h2 : ∀ x ∈ ds2, goodDelta x = true := fun x hx => h x (by simp [hx])
    simp only [List.map_cons, List.foldl_cons, List.flatten_cons]
    rw [processLine_encodeContentLine hd, ih h2, List.append_assoc]

/-- Claim C2 (amended): the decoder keeps no partial-line buffer, so
chunking invariance holds exactly when every chunk boundary falls between
logical lines — for any partition of the encoded `content` lines into
consecutive whole-line chunks, the accumulated text equals the ordered
concatenation of the deltas. -/
theorem C2_amended_line_aligned_chunking (ds : List (List Char))
    (gs : List (List (List Char)))
    (hgood : ∀ d ∈ ds, goodDelta d = true)
    (hpart : gs.flatten = ds.map encodeContentLine) :
    processStream (gs.map chunkOfLines) = ds.flatten := by
  have hlines : ∀ g ∈ gs, ∀ l ∈ g, ('\n' : Char) ∉ l := by
    intro g hg l hl
    have hmem : l ∈ gs.flatten := List.mem_flatten.mpr ⟨g, hg, hl⟩
    rw [hpart] at hmem
    rcases List.mem_map.mp hmem with ⟨d, hd, hdl⟩
    rw [← hdl]
    exact newline_not_mem_encodeContentLine (hgood d hd)
  unfold processStream
  rw [processStream_chunksOfGroups gs hlines, hpart, foldl_processLine_encoded hgood]
  simp

/-- Witness for the amended C2 at a concrete two-line, line-aligned
chunking. -/
theorem C2_amended_line_aligned_chunking_witness :
    processStream
      ([[encodeContentLine "Photo".toList], [encodeContentLine "synthesis".toList]].map
        chunkOfLines)
      = ["Photo".toList, "synthesis".toList].flatten :=
  C2_amended_line_aligned_chunking ["Photo".toList, "synthesis".toList]
    [[encodeContentLine "Photo".toList], [encodeContentLine "synthesis".toList]]
    (by decide) (by decide)

/-- Counterexample to C2 as stated: the same bytes produce the delta when
delivered as one chunk, but produce nothing when the line is split across
two chunks — the decoder drops the partial line instead of buffering it,
so the accumulated text is not independent of the chunk partition. -/
theorem C2_counterexample_split_line_dropped :
    c2Chunk1 ++ c2Chunk2 = encodeContentLine "hi".toList ++ ['\n'] ∧
    processStream [c2Chunk1 ++ c2Chunk2] = "hi".toList ∧
    processStream [c2Chunk1, c2Chunk2] = [] := by
  refine ⟨by decide, by decide, by decide⟩

lemma mapAssistant_map_id (amid : String) (f : Message → Message)
    (hf : ∀ m, (f m).id = m.id) (ms : List Message) :
    (mapAssistant amid f ms).map Message.id = ms.map Message.id := by
  unfold mapAssistant
  rw [List.map_map]
  apply List.map_congr_left
  intro m hm
  by_cases h : m.id = amid
  · simp [Function.comp, h, hf]
  · simp [Function.comp, h]

lemma mem_mapAssistant_id {amid : String} {f : Message → Message}
    (hid : ∀ m, (f m).id = m.id) {ms : List Message}
    (hmem : ∃ m ∈ ms, m.id = amid) :
    ∃ m ∈ mapAssistant amid f ms, m.id = amid := by
  rcases hmem with ⟨m, hm, hid2⟩
  refine ⟨if m.id = amid then f m else m, List.mem_map_of_mem _ hm, ?_⟩
  rw [if_pos hid2, hid m, hid2]

lemma mapAssistant_target {amid : String} {f : Message → Message}
    {ms : List Message} :
    ∀ m ∈ mapAssistant amid f ms, m.id = amid → ∃ m0 ∈ ms, m0.id = amid ∧ m = f m0 := by
  intro m hm hmid
  rcases List.mem_map.mp hm with ⟨m0, hm0, hfm⟩
  by_cases h : m0.id = amid
  · rw [if_pos h] at hfm
    exact ⟨m0, hm0, h, hfm.symm⟩
  · rw [if_neg h] at hfm
    rw [hfm] at h
    exact absurd hmid h

lemma handleSelectChatM_preserves (durable : String → Option (List Message))
    (s : EngineState) (target : String) :
    (handleSelectChatM durable s target).ref.chatId = s.ref.chatId ∧
    (handleSelectChatM durable s target).ref.messages = s.ref.messages ∧
    (handleSelectChatM durable s target).ref.assistantMessageId = s.ref.assistantMessageId ∧
    (handleSelectChatM durable s target).ref.accumulatedContent = s.ref.accumulatedContent ∧
    (handleSelectChatM durable s target).ref.searchHistory = s.ref.searchHistory ∧
    (handleSelectChatM durable s target).accumulated = s.accumulated ∧
    (handleSelectChatM durable s target).currentSearchHistory = s.currentSearchHistory ∧
    (handleSelectChatM durable s target).receivedDone = s.receivedDone ∧
    (handleSelectChatM durable s target).sessionId = s.sessionId ∧
    (handleSelectChatM durable s target).saves = s.saves ∧
    (handleSelectChatM durable s target).replyDeducts = s.replyDeducts := by
  unfold handleSelectChatM
  by_cases h1 : s.uiChatId = some target
  · simp [h1]
  · by_cases h2 : s.ref.chatId = some target
    · simp [h1, h2]
    · cases hd : durable target with
      | none =>
        by_cases h3 : s.ref.chatId = none <;> simp [h1, h2, h3, hd]
      | some ms =>
        by_cases h3 : s.ref.chatId = none <;> simp [h1, h2, h3, hd]

lemma stepEvent_nondone_core (chatId amid : String) (s : EngineState) (e : SSEvent)
    (h : isDoneEvent e = false) :
    (stepEvent chatId amid s e).saves = s.saves ∧
    (stepEvent chatId amid s e).receivedDone = s.receivedDone ∧
    (stepEvent chatId amid s e).replyDeducts = s.replyDeducts ∧
    (stepEvent chatId amid s e).ref.chatId = s.ref.chatId ∧
    (stepEvent chatId amid s e).ref.visibleChatId = s.ref.visibleChatId ∧
    (stepEvent chatId amid s e).uiChatId = s.uiChatId ∧
    (stepEvent chatId amid s e).ref.messages.map Message.id
      = s.ref.messages.map Message.id := by
  cases e with
  | session sid => exact ⟨rfl, rfl, rfl, rfl, rfl, rfl, rfl⟩
  | status msg st icon canSkip =>
    refine ⟨rfl, rfl, rfl, rfl, rfl, rfl, ?_⟩
    exact mapAssistant_map_id amid
      (fun m => { m with currentStatus := some ⟨msg, st, icon, canSkip.getD false⟩ })
      (fun m => rfl) s.ref.messages
  | search q srcs iter qidx sta tp =>
    refine ⟨rfl, rfl, rfl, rfl, rfl, rfl, ?_⟩
    exact mapAssistant_map_id amid
      (fun m => { m with searchHistory := some (upsertSearch s.currentSearchHistory ⟨q, srcs.getD [], iter, qidx, sta, tp⟩) })
      (fun m => rfl) s.ref.messages
  | content delta =>
    refine ⟨rfl, rfl, rfl, rfl, rfl, rfl, ?_⟩
    exact mapAssistant_map_id amid
      (fun m => { m with content := s.accumulated ++ delta, currentStatus := none })
      (fun m => rfl) s.ref.messages
  | done sh rsd => simp [isDoneEvent] at h
  | error msg => exact ⟨rfl, rfl, rfl, rfl, rfl, rfl, rfl⟩

lemma runTrace_nil (chatId amid : String) (durable : String → Option (List Message))
    (s : EngineState) : runTrace chatId amid durable s [] = s := rfl

lemma runTrace_cons (chatId amid : String) (durable : String → Option (List Message))
    (s : EngineState) (st : TurnStep) (rest : List TurnStep) :
    runTrace chatId amid durable s (st :: rest)
      = runTrace chatId amid durable (stepTurn chatId amid durable s st) rest := rfl

lemma runTrace_nodone_core (chatId amid : String)
    (durable : String → Option (List Message)) :
    ∀ (steps : List TurnStep) (s : EngineState),
      (∀ st ∈ steps, isDoneStep st = false) →
      (runTrace chatId amid durable s steps).saves = s.saves ∧
      (runTrace chatId amid durable s steps).receivedDone = s.receivedDone ∧
      (runTrace chatId amid durable s steps).ref.chatId = s.ref.chatId ∧
      (runTrace chatId amid durable s steps).ref.messages.map Message.id
        = s.ref.messages.map Message.id := by
  intro steps
  induction steps with
  | nil => intro s h; exact ⟨rfl, rfl, rfl, rfl⟩
  | cons st rest ih =>
    intro s h
    have hst : isDoneStep st = false := h st (by simp)
    have hrest : ∀ x ∈ rest, isDoneStep x = false := fun x hx => h x (by simp [hx])
    cases st with
    | select t =>
      obtain ⟨c1, c2, c3, c4, c5, c6, c7, c8, c9, c10, c11⟩ :=
        handleSelectChatM_preserves durable s t
      have hstep : stepTurn chatId amid durable s (TurnStep.select t)
          = handleSelectChatM durable s t := rfl
      rw [runTrace_cons, hstep]
      rcases ih (handleSelectChatM durable s t) hrest with ⟨h1, h2, h3, h4⟩
      exact ⟨h1.trans c10, h2.trans c8, h3.trans c1, h4.trans (by rw [c2])⟩
    | ev e =>
      have he : isDoneEvent e = false := by simpa [isDoneStep] using hst
      obtain ⟨c1, c2, c3, c4, c5, c6, c7⟩ := stepEvent_nondone_core chatId amid s e he
      have hstep : stepTurn chatId amid durable s (TurnStep.ev e)
          = stepEvent chatId amid s e := rfl
      rw [runTrace_cons, hstep]
      rcases ih (stepEvent chatId amid s e) hrest with ⟨h1, h2, h3, h4⟩
      exact ⟨h1.trans c1, h2.trans c2, h3.trans c4, h4.trans c7⟩

lemma exists_id_of_map_eq {l1 l2 : List Message}
    (h : l1.map Message.id = l2.map Message.id) {amid : String}
    (hm : ∃ m ∈ l2, m.id = amid) : ∃ m ∈ l1, m.id = amid := by
  rcases hm with ⟨m, hm2, hid⟩
  have hmem : amid ∈ l1.map Message.id := by
    rw [h]
    exact List.mem_map.mpr ⟨m, hm2, hid⟩
  rcases List.mem_map.mp hmem with ⟨m1, hm1, hid1⟩
  exact ⟨m1, hm1, hid1⟩

lemma forceFinalizedMessages_ids (amid acc : String) (hist : List SearchEntry)
    (ms : List Message) :
    (forceFinalizedMessages amid acc hist ms).map Message.id = ms.map Message.id := by
  unfold forceFinalizedMessages
  apply mapAssistant_map_id
  intro m
  rfl

lemma forceFinalizedMessages_streaming_false (amid acc : String)
    (hist : List SearchEntry) (ms : List Message) :
    ∀ m ∈ forceFinalizedMessages amid acc hist ms, m.id = amid →
      m.isStreaming = some false := by
  unfold forceFinalizedMessages
  intro m hm hmid
  rcases mapAssistant_target m hm hmid with ⟨m0, hm0, hid0, hfm⟩
  rw [hfm]

lemma errorFinalizedMessages_ids (amid emsg : String) (ms : List Message) :
    (errorFinalizedMessages amid emsg ms).map Message.id = ms.map Message.id := by
  unfold errorFinalizedMessages
  apply mapAssistant_map_id
  intro m
  rfl

lemma errorFinalizedMessages_streaming_false (amid emsg : String) (ms : List Message) :
    ∀ m ∈ errorFinalizedMessages amid emsg ms, m.id = amid →
      m.isStreaming = some false := by
  unfold errorFinalizedMessages
  intro m hm hmid
  rcases mapAssistant_target m hm hmid with ⟨m0, hm0, hid0, hfm⟩
  rw [hfm]

/-- Claim C1: a turn whose reader loop ends without a `done` event —
stream closed by the transport or a fault rejected by the reader — is
still finalized exactly once: exactly one `updateChat` call is made, for
the turn's conversation, with the materialized message list, in which the
assistant placeholder is present and has left the streaming state. -/
theorem C1_finalize_exactly_once_without_done
    (prior : List Message) (text chatId umid amid : String) (sid0 : Option String)
    (durable : String → Option (List Message)) (steps : List TurnStep)
    (k : StreamEndKind)
    (hchat : chatId ≠ "") (hk : k ≠ StreamEndKind.aborted)
    (hnodone : ∀ st ∈ steps, isDoneStep st = false) :
    ∃ F, (runTurn prior text chatId umid amid sid0 durable steps k).saves
        = [(chatId, F)] ∧
      (∃ m ∈ F, m.id = amid) ∧
      (∀ m ∈ F, m.id = amid → m.isStreaming = some false) := by
  obtain ⟨hsaves, hdone, hchatid, hids⟩ :=
    runTrace_nodone_core chatId amid durable steps
      (initEngineState prior text chatId umid amid sid0) hnodone
  set sE := runTrace chatId amid durable
    (initEngineState prior text chatId umid amid sid0) steps with hsE
  have hsaves0 : sE.saves = [] := hsaves.trans rfl
  have hdone0 : sE.receivedDone = false := hdone.trans rfl
  have hmem_init : ∃ m ∈ (initEngineState prior text chatId umid amid sid0).ref.messages,
      m.id = amid := by
    refine ⟨mkAssistantPlaceholder amid, ?_, rfl⟩
    show mkAssistantPlaceholder amid
      ∈ prior ++ [mkUserMessage umid text, mkAssistantPlaceholder amid]
    simp
  have hmem_sE : ∃ m ∈ sE.ref.messages, m.id = amid :=
    exists_id_of_map_eq hids hmem_init
  have hrunfin : runTurn prior text chatId umid amid sid0 durable steps k
      = finishTurn chatId amid k sE := rfl
  cases k with
  | aborted => exact absurd rfl hk
  | closed =>
    refine ⟨forceFinalizedMessages amid sE.accumulated sE.currentSearchHistory
      sE.ref.messages, ?_, ?_, ?_⟩
    · rw [hrunfin]
      unfold finishTurn
      rw [if_neg (by rw [hdone0]; simp)]
      simp [hchat, hsaves0]
    · exact exists_id_of_map_eq
        (forceFinalizedMessages_ids amid sE.accumulated sE.currentSearchHistory
          sE.ref.messages) hmem_sE
    · exact forceFinalizedMessages_streaming_false amid sE.accumulated
        sE.currentSearchHistory sE.ref.messages
  | failed emsg =>
    refine ⟨errorFinalizedMessages amid emsg sE.ref.messages, ?_, ?_, ?_⟩
    · rw [hrunfin]
      unfold finishTurn
      simp [hchat, hsaves0]
    · exact exists_id_of_map_eq (errorFinalizedMessages_ids amid emsg sE.ref.messages)
        hmem_sE
    · exact errorFinalizedMessages_streaming_false amid emsg sE.ref.messages

/-- Witness for C1 at a concrete dropped stream after one content delta. -/
theorem C1_finalize_exactly_once_without_done_witness :
    ∃ F, (runTurn [] "q" "c1" "u1" "a1" none (fun _ => none)
        [TurnStep.ev (SSEvent.content "hi")] StreamEndKind.closed).saves
        = [("c1", F)] ∧
      (∃ m ∈ F, m.id = "a1") ∧
      (∀ m ∈ F, m.id = "a1" → m.isStreaming = some false) :=
  C1_finalize_exactly_once_without_done [] "q" "c1" "u1" "a1" none (fun _ => none)
    [TurnStep.ev (SSEvent.content "hi")] StreamEndKind.closed
    (by decide) (by decide) (by decide)

/-- Claim C7: the forced finalization of a stream that ended without
`done` gives the assistant message the accumulated text whenever it is
non-empty, substitutes the interruption note exactly when the accumulated
text is empty and the search history is non-empty, keeps the previous
content when both are empty, sets `isStreaming` to false, clears the
ephemeral status, and marks every search-history entry complete. -/
theorem C7_forced_finalization_content (ms : List Message) (amid acc : String)
    (hist : List SearchEntry) (i : Nat) (m0 : Message)
    (hm : ms[i]? = some m0) (hid : m0.id = amid) :
    ∃ m, (forceFinalizedMessages amid acc hist ms)[i]? = some m ∧
      m.isStreaming = some false ∧
      m.currentStatus = none ∧
      m.searchHistory
        = some (hist.map fun en => { en with status := some SearchState.complete }) ∧
      (∀ en ∈ m.searchHistory.getD [], en.status = some SearchState.complete) ∧
      (acc ≠ "" → m.content = acc) ∧
      (acc = "" → hist ≠ [] → m.content = interruptionNote) ∧
      (acc = "" → hist = [] → m.content = m0.content) := by
  refine ⟨{ m0 with
    isStreaming := some false
    currentStatus := none
    searchHistory := some (hist.map fun en => { en with status := some SearchState.complete })
    content := if acc ≠ "" then acc
               else if hist.length > 0 then interruptionNote
               else m0.content }, ?_, rfl, rfl, rfl, ?_, ?_, ?_, ?_⟩
  · simp only [forceFinalizedMessages, mapAssistant]
    rw [List.getElem?_map, hm]
    simp [hid]
  · intro en hen
    simp only [Option.getD_some] at hen
    rcases List.mem_map.mp hen with ⟨en0, hen0, hrfl⟩
    rw [← hrfl]
  · intro hacc
    show (if acc ≠ "" then acc else if hist.length > 0 then interruptionNote
          else m0.content) = acc
    rw [if_pos hacc]
  · intro hacc hhist
    show (if acc ≠ "" then acc else if hist.length > 0 then interruptionNote
          else m0.content) = interruptionNote
    rw [if_neg (by simp [hacc]), if_pos (List.length_pos.mpr hhist)]
  · intro hacc hhist
    show (if acc ≠ "" then acc else if hist.length > 0 then interruptionNote
          else m0.content) = m0.content
    rw [if_neg (by simp [hacc]), if_neg (by simp [hhist])]

/-- Witness for C7 at a concrete interrupted turn with accumulated text. -/
theorem C7_forced_finalization_content_witness :
    ∃ m, (forceFinalizedMessages "a1" "Photosynthesis is..." []
        [mkAssistantPlaceholder "a1"])[0]? = some m ∧
      m.isStreaming = some false ∧
      m.currentStatus = none ∧
      m.searchHistory
        = some (([] : List SearchEntry).map
            fun en => { en with status := some SearchState.complete }) ∧
      (∀ en ∈ m.searchHistory.getD [], en.status = some SearchState.complete) ∧
      ("Photosynthesis is..." ≠ "" → m.content = "Photosynthesis is...") ∧
      ("Photosynthesis is..." = "" → ([] : List SearchEntry) ≠ [] →
        m.content = interruptionNote) ∧
      ("Photosynthesis is..." = "" → ([] : List SearchEntry) = [] →
        m.content = (mkAssistantPlaceholder "a1").content) :=
  C7_forced_finalization_content [mkAssistantPlaceholder "a1"] "a1"
    "Photosynthesis is..." [] 0 (mkAssistantPlaceholder "a1") (by decide) (by decide)

/-- Claim C3 (code bug): a decoded `error` event does not substitute any
message and does not transition the turn — the deliberate
`throw new Error(data.message)` is intercepted by the inner
`catch (parseError)` meant for malformed JSON, so the event is logged and
skipped: the whole turn behaves exactly as if the event had never
arrived, and the conversation ends with empty assistant content rather
than the generic safe message. -/
theorem C3_error_event_swallowed_by_parse_catch :
    runTurn [] "q" "c1" "u1" "a1" none (fun _ => none)
        [TurnStep.ev (SSEvent.error "backend exploded")] StreamEndKind.closed
      = runTurn [] "q" "c1" "u1" "a1" none (fun _ => none) [] StreamEndKind.closed ∧
    ∃ m ∈ (runTurn [] "q" "c1" "u1" "a1" none (fun _ => none)
        [TurnStep.ev (SSEvent.error "backend exploded")] StreamEndKind.closed).uiMessages,
      m.id = "a1" ∧ m.isStreaming = some false ∧ m.content = "" ∧
      m.content ≠ errorContent "backend exploded" := by
  refine ⟨by decide, by decide⟩

lemma stepTurn_replyDeducts (chatId amid : String)
    (durable : String → Option (List Message)) (s : EngineState) (st : TurnStep) :
    (stepTurn chatId amid durable s st).replyDeducts
      = s.replyDeducts + (if isDoneStep st = true then 1 else 0) := by
  cases st with
  | select t =>
    obtain ⟨c1, c2, c3, c4, c5, c6, c7, c8, c9, c10, c11⟩ :=
      handleSelectChatM_preserves durable s t
    have hs : stepTurn chatId amid durable s (TurnStep.select t)
        = handleSelectChatM durable s t := rfl
    rw [hs, c11]
    simp [isDoneStep]
  | ev e =>
    cases e with
    | done sh rsd =>
      show s.replyDeducts + 1 = _
      simp [isDoneStep, isDoneEvent]
    | session sid => simp [stepTurn, stepEvent, isDoneStep, isDoneEvent]
    | status msg st2 icon canSkip =>
      obtain ⟨c1, c2, c3, c4, c5, c6, c7⟩ :=
        stepEvent_nondone_core chatId amid s (SSEvent.status msg st2 icon canSkip) rfl
      have hs : stepTurn chatId amid durable s (TurnStep.ev (SSEvent.status msg st2 icon canSkip))
          = stepEvent chatId amid s (SSEvent.status msg st2 icon canSkip) := rfl
      rw [hs, c3]
      simp [isDoneStep, isDoneEvent]
    | search q srcs iter qidx sta tp =>
      obtain ⟨c1, c2, c3, c4, c5, c6, c7⟩ :=
        stepEvent_nondone_core chatId amid s (SSEvent.search q srcs iter qidx sta tp) rfl
      have hs : stepTurn chatId amid durable s (TurnStep.ev (SSEvent.search q srcs iter qidx sta tp))
          = stepEvent chatId amid s (SSEvent.search q srcs iter qidx sta tp) := rfl
      rw [hs, c3]
      simp [isDoneStep, isDoneEvent]
    | content delta =>
      obtain ⟨c1, c2, c3, c4, c5, c6, c7⟩ :=
        stepEvent_nondone_core chatId amid s (SSEvent.content delta) rfl
      have hs : stepTurn chatId amid durable s (TurnStep.ev (SSEvent.content delta))
          = stepEvent chatId amid s (SSEvent.content delta) := rfl
      rw [hs, c3]
      simp [isDoneStep, isDoneEvent]
    | error msg => simp [stepTurn, stepEvent, isDoneStep, isDoneEvent]

lemma runTrace_replyDeducts (chatId amid : String)
    (durable : String → Option (List Message)) :
    ∀ (steps : List TurnStep) (s : EngineState),
      (runTrace chatId amid durable s steps).replyDeducts
        = s.replyDeducts + countDoneEvents steps := by
  intro steps
  induction steps with
  | nil =>
    intro s
    rw [runTrace_nil]
    simp [countDoneEvents]
  | cons st rest ih =>
    intro s
    rw [runTrace_cons, ih, stepTurn_replyDeducts]
    unfold countDoneEvents
    by_cases h : isDoneStep st = true
    · simp [List.filter_cons, h]
      omega
    · simp [List.filter_cons, h]

lemma finishTurn_replyDeducts (chatId amid : String) (k : StreamEndKind)
    (s : EngineState) :
    (finishTurn chatId amid k s).replyDeducts = s.replyDeducts := by
  cases k with
  | closed =>
    by_cases h : s.receivedDone = true
    · simp [finishTurn, h]
    · simp [finishTurn, h]
  | failed emsg => rfl
  | aborted => rfl

/-- Claim C9 (amended): only the processing of a `done` event performs the
post-turn reply-credit deduction — exactly one attempt per decoded
`done`; the forced completion-without-`done` path, the error path, and
the abort path perform none.  (The attempt remains best-effort: the
source wraps it in a try/catch whose result is never consulted, which in
this embedding is reflected by the deduction count being the state's only
record of it.) -/
theorem C9_amended_reply_deduction_only_on_done
    (prior : List Message) (text chatId umid amid : String) (sid0 : Option String)
    (durable : String → Option (List Message)) (steps : List TurnStep)
    (k : StreamEndKind) :
    (runTurn prior text chatId umid amid sid0 durable steps k).replyDeducts
      = countDoneEvents steps := by
  unfold runTurn
  rw [finishTurn_replyDeducts, runTrace_replyDeducts]
  rw [show (initEngineState prior text chatId umid amid sid0).replyDeducts = 0 from rfl]
  exact Nat.zero_add _

/-- Counterexample to C9 as stated: a turn terminated by forced
finalization without `done` — a genuine terminal transition, with its one
persistence call and the placeholder finalized — performs zero
reply-credit deductions. -/
theorem C9_counterexample_forced_finalization_no_deduction :
    (runTurn [] "q" "c1" "u1" "a1" none (fun _ => none)
        [TurnStep.ev (SSEvent.content "hi")] StreamEndKind.closed).saves.length = 1 ∧
    (∃ m ∈ (runTurn [] "q" "c1" "u1" "a1" none (fun _ => none)
        [TurnStep.ev (SSEvent.content "hi")] StreamEndKind.closed).uiMessages,
      m.id = "a1" ∧ m.isStreaming = some false) ∧
    (runTurn [] "q" "c1" "u1" "a1" none (fun _ => none)
        [TurnStep.ev (SSEvent.content "hi")] StreamEndKind.closed).replyDeducts = 0 := by
  refine ⟨by decide, by decide, by decide⟩

lemma replaySteps_cons (amid : String) (v : LiveView) (st : TurnStep)
    (rest : List TurnStep) :
    replaySteps amid v (st :: rest) = replaySteps amid (replayStep amid v st) rest := rfl

lemma stepEvent_liveView (chatId amid : String) (s : EngineState) (e : SSEvent)
    (he : isDoneEvent e = false) :
    liveView (stepEvent chatId amid s e) = applyEventView amid (liveView s) e := by
  cases e with
  | session sid => rfl
  | status msg st icon canSkip => rfl
  | search q srcs iter qidx sta tp => rfl
  | content delta => rfl
  | done sh rsd => simp [isDoneEvent] at he
  | error msg => rfl

lemma handleSelectChatM_liveView (durable : String → Option (List Message))
    (s : EngineState) (target : String) :
    liveView (handleSelectChatM durable s target) = liveView s := by
  obtain ⟨c1, c2, c3, c4, c5, c6, c7, c8, c9, c10, c11⟩ :=
    handleSelectChatM_preserves durable s target
  unfold liveView
  rw [c2, c6, c7]

lemma runTrace_liveView (chatId amid : String)
    (durable : String → Option (List Message)) :
    ∀ (steps : List TurnStep) (s : EngineState),
      (∀ st ∈ steps, isDoneStep st = false) →
      liveView (runTrace chatId amid durable s steps)
        = replaySteps amid (liveView s) steps := by
  intro steps
  induction steps with
  | nil => intro s h; rfl
  | cons st rest ih =>
    intro s h
    have hst : isDoneStep st = false := h st (by simp)
    have hrest : ∀ x ∈ rest, isDoneStep x = false := fun x hx => h x (by simp [hx])
    rw [runTrace_cons, replaySteps_cons]
    cases st with
    | ev e =>
      have he : isDoneEvent e = false := by simpa [isDoneStep] using hst
      have hs : stepTurn chatId amid durable s (TurnStep.ev e)
          = stepEvent chatId amid s e := rfl
      rw [hs, ih _ hrest, stepEvent_liveView chatId amid s e he]
      rfl
    | select t =>
      have hs : stepTurn chatId amid durable s (TurnStep.select t)
          = handleSelectChatM durable s t := rfl
      rw [hs, ih _ hrest, handleSelectChatM_liveView]
      rfl

lemma visSync_msgUpdate (chatId : String) {s : EngineState} (ms : List Message)
    (hs : visSync chatId s) {s2 : EngineState}
    (h2ref : s2.ref.chatId = s.ref.chatId)
    (h2vis : s2.ref.visibleChatId = s.ref.visibleChatId)
    (h2ui : s2.uiChatId = s.uiChatId)
    (h2msgs : s2.ref.messages = ms)
    (h2uimsgs : s2.uiMessages
      = if s.ref.visibleChatId = some chatId then ms else s.uiMessages) :
    visSync chatId s2 := by
  obtain ⟨hc, himp⟩ := hs
  refine ⟨h2ref.trans hc, ?_⟩
  intro hui
  rw [h2ui] at hui
  obtain ⟨hvis, hmsg⟩ := himp hui
  refine ⟨h2vis.trans hvis, ?_⟩
  rw [h2uimsgs, if_pos hvis, h2msgs]

lemma stepEvent_visSync (chatId amid : String) (s : EngineState) (e : SSEvent)
    (he : isDoneEvent e = false) (hs : visSync chatId s) :
    visSync chatId (stepEvent chatId amid s e) := by
  cases e with
  | session sid => exact ⟨hs.1, hs.2⟩
  | error msg => exact ⟨hs.1, hs.2⟩
  | done sh rsd => simp [isDoneEvent] at he
  | status msg st icon canSkip => exact visSync_msgUpdate chatId _ hs rfl rfl rfl rfl rfl
  | search q srcs iter qidx sta tp => exact visSync_msgUpdate chatId _ hs rfl rfl rfl rfl rfl
  | content delta => exact visSync_msgUpdate chatId _ hs rfl rfl rfl rfl rfl

lemma handleSelectChatM_visSync (chatId : String)
    (durable : String → Option (List Message)) (s : EngineState) (target : String)
    (hload : target = chatId ∨ durable target ≠ none)
    (hs : visSync chatId s) : visSync chatId (handleSelectChatM durable s target) := by
  obtain ⟨hc, himp⟩ := hs
  unfold handleSelectChatM
  by_cases h1 : s.uiChatId = some target
  · rw [if_pos h1]
    exact ⟨hc, himp⟩
  · rw [if_neg h1]
    by_cases h2 : s.ref.chatId = some target
    · rw [if_pos h2]
      have ht : target = chatId := Option.some.inj (h2.symm.trans hc)
      refine ⟨hc, ?_⟩
      intro hui
      refine ⟨?_, rfl⟩
      show some target = some chatId
      rw [ht]
    · rw [if_neg h2]
      have ht : target ≠ chatId := by
        intro h
        rw [h] at h2
        exact h2 hc
      have hd : durable target ≠ none := by tauto
      cases hdt : durable target with
      | none => exact absurd hdt hd
      | some ms =>
        have h3 : s.ref.chatId ≠ none := by
          rw [hc]
          simp
        simp only [hdt, if_pos h3]
        refine ⟨hc, ?_⟩
        intro hui
        exact absurd (Option.some.inj hui) ht

lemma runTrace_visSync (chatId amid : String)
    (durable : String → Option (List Message)) :
    ∀ (steps : List TurnStep) (s : EngineState),
      (∀ st ∈ steps, isDoneStep st = false) →
      (∀ t, TurnStep.select t ∈ steps → t = chatId ∨ durable t ≠ none) →
      visSync chatId s → visSync chatId (runTrace chatId amid durable s steps) := by
  intro steps
  induction steps with
  | nil => intro s h hl hs; exact hs
  | cons st rest ih =>
    intro s h hl hs
    have hst : isDoneStep st = false := h st (by simp)
    have hrest : ∀ x ∈ rest, isDoneStep x = false := fun x hx => h x (by simp [hx])
    have hlrest : ∀ t, TurnStep.select t ∈ rest → t = chatId ∨ durable t ≠ none :=
      fun t htm => hl t (by simp [htm])
    rw [runTrace_cons]
    cases st with
    | ev e =>
      have he : isDoneEvent e = false := by simpa [isDoneStep] using hst
      exact ih _ hrest hlrest (stepEvent_visSync chatId amid s e he hs)
    | select t =>
      have hload : t = chatId ∨ durable t ≠ none := hl t (by simp)
      exact ih _ hrest hlrest (handleSelectChatM_visSync chatId durable s t hload hs)

/-- Claim C8: switching the visible conversation never cancels or touches
any running session — it only changes the rendered projection — and
switching back to a generating conversation renders exactly the message
state its background session accumulated (the pure replay of every decoded
event), independent of the durable snapshot. -/
theorem C8_visibility_switch_preserves_session :
    (∀ (durable : String → Option (List Message)) (s : EngineState) (target : String),
      sessionCore (handleSelectChatM durable s target) = sessionCore s) ∧
    (∀ (prior : List Message) (text chatId umid amid : String) (sid0 : Option String)
        (durable : String → Option (List Message)) (steps : List TurnStep),
      (∀ st ∈ steps, isDoneStep st = false) →
      (∀ t, TurnStep.select t ∈ steps → t = chatId ∨ durable t ≠ none) →
      ∀ d2 : String → Option (List Message),
        (handleSelectChatM d2
            (runTrace chatId amid durable
              (initEngineState prior text chatId umid amid sid0) steps)
            chatId).uiMessages
          = (replaySteps amid
              (liveView (initEngineState prior text chatId umid amid sid0))
              steps).messages) := by
  constructor
  · intro durable s target
    obtain ⟨c1, c2, c3, c4, c5, c6, c7, c8, c9, c10, c11⟩ :=
      handleSelectChatM_preserves durable s target
    unfold sessionCore
    rw [c1, c2, c3, c4, c5, c6, c7, c8, c9, c10, c11]
  · intro prior text chatId umid amid sid0 durable steps hnodone hload d2
    have hvs0 : visSync chatId (initEngineState prior text chatId umid amid sid0) := by
      refine ⟨rfl, ?_⟩
      intro hui
      exact ⟨rfl, rfl⟩
    have hvsE := runTrace_visSync chatId amid durable steps
      (initEngineState prior text chatId umid amid sid0) hnodone hload hvs0
    have hview := runTrace_liveView chatId amid durable steps
      (initEngineState prior text chatId umid amid sid0) hnodone
    obtain ⟨hcE, himpE⟩ := hvsE
    set sE := runTrace chatId amid durable
      (initEngineState prior text chatId umid amid sid0) steps with hsE
    unfold handleSelectChatM
    by_cases h1 : sE.uiChatId = some chatId
    · rw [if_pos h1]
      obtain ⟨hvis, hmsg⟩ := himpE h1
      rw [hmsg, show sE.ref.messages = (liveView sE).messages from rfl, hview]
    · rw [if_neg h1, if_pos hcE]
      show sE.ref.messages = _
      rw [show sE.ref.messages = (liveView sE).messages from rfl, hview]

/-- Witness for C8 at a concrete trace that switches away mid-stream and
back: the rendered list after switching back equals the pure replay. -/
theorem C8_visibility_switch_preserves_session_witness :
    (handleSelectChatM (fun _ => none)
        (runTrace "c1" "a1" (fun c => if c = "c2" then some [] else none)
          (initEngineState [] "q" "c1" "u1" "a1" none)
          [TurnStep.ev (SSEvent.content "Photo"), TurnStep.select "c2",
           TurnStep.ev (SSEvent.content "synthesis")])
        "c1").uiMessages
      = (replaySteps "a1" (liveView (initEngineState [] "q" "c1" "u1" "a1" none))
          [TurnStep.ev (SSEvent.content "Photo"), TurnStep.select "c2",
           TurnStep.ev (SSEvent.content "synthesis")]).messages :=
  C8_visibility_switch_preserves_session.2 [] "q" "c1" "u1" "a1" none
    (fun c => if c = "c2" then some [] else none)
    [TurnStep.ev (SSEvent.content "Photo"), TurnStep.select "c2",
     TurnStep.ev (SSEvent.content "synthesis")]
    (by decide)
    (by
      intro t ht
      simp at ht
      rw [ht]
      right
      decide)
    (fun _ => none)
